import Mathlib

/- Shallow embedding of the nzb-repair repository: the manifest partition and
   par2 filename rule, the par2 command driver, the article codec's yEnc
   footer, the repair pipeline's segment write offsets, the persistent job
   queue operations, the watch-mode output-path guard, and configuration
   defaulting. Definitions are translated from the Go sources; machine
   integers are modelled as Nat or Int, bytes as Nat below 256, and SQL rows
   as lists of records. -/

namespace NzbRepair

/- ### String helpers (Go strings / path semantics on character lists) -/

/-- Go strings.HasPrefix: the second string is a leading run of the first. -/
def strStartsWith (s t : String) : Bool := t.data.isPrefixOf s.data

/-- Occurrence of one character list inside another: the needle is a leading
run of some suffix of the haystack. -/
def listIsInside : List Char → List Char → Bool
  | t, [] => t.isPrefixOf []
  | t, c :: rest => t.isPrefixOf (c :: rest) || listIsInside t rest

/-- Go strings.Contains: the second string occurs somewhere inside the first. -/
def strContainsSub (s t : String) : Bool := listIsInside t.data s.data

/-- Head-character test backing Go filepath.IsAbs on Unix: a path is absolute
when it starts with a slash. -/
def isAbsPath (p : String) : Bool :=
  match p.data with
  | [] => false
  | c :: _ => c = '/'

/-- Go strings.Split on "/": splitting the empty list yields one empty
component, and every slash starts a fresh component. -/
def splitOnSlash : List Char → List (List Char)
  | [] => [[]]
  | c :: rest =>
    let r := splitOnSlash rest
    if c = '/' then [] :: r
    else
      match r with
      | [] => [[c]]
      | h :: t => (c :: h) :: t

/-- Join path components with single slashes (no leading or trailing slash). -/
def intercalSlash : List (List Char) → List Char
  | [] => []
  | [x] => x
  | x :: xs => x ++ '/' :: intercalSlash xs

/-- One component of Go filepath.Clean processed against the stack of kept
components (stack is reversed: most recent first). Empty and "." components
are dropped; ".." pops a kept component, is dropped at the root, and is kept
when there is nothing left to pop in a relative path. -/
def cleanStep (rooted : Bool) (st : List (List Char)) (c : List Char) : List (List Char) :=
  if c = [] ∨ c = ['.'] then st
  else if c = ['.', '.'] then
    match st with
    | [] => if rooted then [] else [['.', '.']]
    | top :: rest => if top = ['.', '.'] then ['.', '.'] :: (top :: rest) else rest
  else c :: st

/-- Go filepath.Clean (Unix) on a character list, by the equivalent
component-stack formulation: split on slashes, process components, reassemble;
an empty input cleans to ".", a rooted input keeps its leading slash. -/
def cleanPathChars (cs : List Char) : List Char :=
  if cs = [] then ['.']
  else
    let rooted : Bool :=
      match cs with
      | '/' :: _ => true
      | _ => false
    let parts := ((splitOnSlash cs).foldl (cleanStep rooted) []).reverse
    if rooted then '/' :: intercalSlash parts
    else if parts = [] then ['.']
    else intercalSlash parts

/-- Go filepath.Clean (Unix) on strings. -/
def cleanPath (p : String) : String := ⟨cleanPathChars p.data⟩

/-- Go filepath.Join of two elements: join the non-empty elements with a
slash and Clean the result; all-empty input joins to the empty string. -/
def joinPath (a b : String) : String :=
  if a = "" ∧ b = "" then ""
  else if a = "" then cleanPath b
  else if b = "" then cleanPath a
  else cleanPath (a ++ "/" ++ b)

/- ### Persistent job queue (internal/queue/queue.go)

   The jobs table is modelled as a list of rows; the filepath column carries
   a unique index, stated where a proof needs it. created_at and updated_at
   timestamps are not modelled: no claim mentions them. -/

/-- The five job states of internal/queue/queue.go. -/
inductive JobStatus where
  | pending
  | processing
  | completed
  | failed
  | moved
deriving DecidableEq

/-- One row of the jobs table. error_msg is a nullable column
(sql.NullString), modelled as Option String. -/
structure JobRow where
  id : Int
  filepath : String
  relativePath : String
  status : JobStatus
  errorMsg : Option String
  retryCount : Int
deriving DecidableEq

/-- The row the AddJob INSERT creates: status pending, and the table defaults
error_msg NULL and retry_count 0. -/
def newJobRow (newId : Int) (filePath relativePath : String) : JobRow :=
  { id := newId, filepath := filePath, relativePath := relativePath,
    status := JobStatus.pending, errorMsg := none, retryCount := 0 }

/-- Queue.AddJob (queue.go lines 129-183): select the row by filepath; when
absent insert a pending row; when present with status failed or completed,
update it to pending, null the error message and refresh the relative path
(the UPDATE names no retry_count, so it is preserved); otherwise do nothing.
newId models the AUTOINCREMENT id the INSERT would receive. -/
def addJob (db : List JobRow) (newId : Int) (filePath relativePath : String) : List JobRow :=
  match db.find? (fun r => r.filepath == filePath) with
  | none => db ++ [newJobRow newId filePath relativePath]
  | some r =>
    if r.status = JobStatus.failed ∨ r.status = JobStatus.completed then
      db.map (fun q =>
        if q.filepath == filePath then
          { q with status := JobStatus.pending, errorMsg := none, relativePath := relativePath }
        else q)
    else db

/-- Queue.UpdateJobStatus (queue.go lines 233-259): update the row with the
given id; a non-empty error message is stored, an empty one stores NULL
(sql.NullString zero value); when the new status is failed the UPDATE also
adds one to retry_count. -/
def updateJobStatus (db : List JobRow) (jobId : Int) (status : JobStatus) (errorMsg : String) : List JobRow :=
  let errMsg : Option String := if errorMsg = "" then none else some errorMsg
  db.map (fun r =>
    if r.id == jobId then
      if status = JobStatus.failed then
        { r with status := status, errorMsg := errMsg, retryCount := r.retryCount + 1 }
      else
        { r with status := status, errorMsg := errMsg }
    else r)

/- ### Configuration defaulting (internal/config/config.go)

   Providers are modelled with the two fields the defaulting pass touches;
   Go int and time.Duration become Int (duration in nanoseconds). Only the
   Config fields mergeWithDefault reads or writes, plus the untouched ones
   the struct carries, are modelled. -/

structure ProviderConfig where
  maxConnections : Int
  maxConnectionIdleTimeInSeconds : Int
deriving DecidableEq

structure Config where
  downloadWorkers : Int
  uploadWorkers : Int
  downloadFolder : String
  downloadProviders : List ProviderConfig
  uploadProviders : List ProviderConfig
  par2Exe : String
  obfuscationPolicy : String
  scanInterval : Int
  maxRetries : Int
  brokenFolder : String
deriving DecidableEq

/-- Five minutes in nanoseconds, the scan_interval default. -/
def scanIntervalDefault : Int := 300000000000

/-- Per-provider defaulting inside mergeWithDefault's loops: a zero
max_connections becomes 10 and a zero idle time becomes 2400. -/
def providerWithDefaults (p : ProviderConfig) : ProviderConfig :=
  { p with
    maxConnections := if p.maxConnections = 0 then 10 else p.maxConnections,
    maxConnectionIdleTimeInSeconds :=
      if p.maxConnectionIdleTimeInSeconds = 0 then 2400
      else p.maxConnectionIdleTimeInSeconds }

/-- The worker sum mergeWithDefault accumulates: max_connections of each
provider after per-provider defaulting. -/
def sumMaxConnections (l : List ProviderConfig) : Int :=
  (l.map (fun p => (providerWithDefaults p).maxConnections)).sum

/-- config.mergeWithDefault (config.go lines 428-493). The Go function is
variadic; `none` is the no-argument call (all defaults, workers 10) and
`some cfg` the one-argument call config.NewFromFile makes: default each
provider, replace a zero worker count by the provider sum, and default
scan_interval, max_retries and broken_folder. The one-argument path does not
touch download_folder, par2_exe or the obfuscation policy. -/
def mergeWithDefault : Option Config → Config
  | none =>
    { downloadWorkers := 10, uploadWorkers := 10, downloadFolder := "./",
      downloadProviders := [], uploadProviders := [], par2Exe := "",
      obfuscationPolicy := "", scanInterval := scanIntervalDefault,
      maxRetries := 3, brokenFolder := "broken" }
  | some cfg =>
    { cfg with
      downloadProviders := cfg.downloadProviders.map providerWithDefaults,
      uploadProviders := cfg.uploadProviders.map providerWithDefaults,
      downloadWorkers :=
        if cfg.downloadWorkers = 0 then sumMaxConnections cfg.downloadProviders
        else cfg.downloadWorkers,
      uploadWorkers :=
        if cfg.uploadWorkers = 0 then sumMaxConnections cfg.uploadProviders
        else cfg.uploadWorkers,
      scanInterval :=
        if cfg.scanInterval = 0 then scanIntervalDefault else cfg.scanInterval,
      maxRetries := if cfg.maxRetries = 0 then 3 else cfg.maxRetries,
      brokenFolder := if cfg.brokenFolder = "" then "broken" else cfg.brokenFolder }

/- ### Manifest partition (splitParWithRest and the par2 filename rule) -/

/-- A manifest file, projected to the field the partition reads. -/
structure NzbFile where
  filename : String
deriving DecidableEq

def isDigitChar (c : Char) : Bool := '0' ≤ c && c ≤ '9'

/-- Full match of a character list against the regex piece vol-digits-plus-
digits, i.e. dot, v, o, l, one or more digits, a plus, one or more digits.
The input is already lowercased. Digits cannot match the plus, so the greedy
takeWhile split is the only possible parse. -/
def volGroupMatch (cs : List Char) : Bool :=
  match cs with
  | '.' :: 'v' :: 'o' :: 'l' :: rest =>
    let ds := rest.takeWhile isDigitChar
    let rest2 := rest.dropWhile isDigitChar
    !ds.isEmpty &&
      (match rest2 with
       | '+' :: rest3 => !rest3.isEmpty && rest3.all isDigitChar
       | _ => false)
  | _ => false

/-- The five characters of the literal suffix ".par2". -/
def dotPar2 : List Char := ['.', 'p', 'a', 'r', '2']

/-- Full match of a character list (already lowercased) against the par2
pattern body: an optional vol group followed by the literal ".par2". The vol
group never contains the letter p, so the split five characters before the
end is the only candidate. -/
def optVolPar2Match (cs : List Char) : Bool :=
  let n := cs.length
  if n < 5 then false
  else
    (cs.drop (n - 5) == dotPar2) &&
      (cs.take (n - 5) == ([] : List Char) || volGroupMatch (cs.take (n - 5)))

/-- MatchString of the source pattern parregexp, case-insensitive with an
optional vol group and anchored at the end only: some suffix of the
lowercased name matches the pattern body in full. The extra capturing group
around the second digit run in the source pattern does not change the
matched language, so this one matcher also embeds the spec's pattern, which
differs only in that group. Case folding is ASCII. -/
def parMatch (s : String) : Bool :=
  let lc := s.data.map Char.toLower
  (List.range (lc.length + 1)).any (fun i => optVolPar2Match (lc.drop i))

/-- splitParWithRest (the par2 driver file, lines 52-65): one pass over the
manifest's files appending each to parFiles when parregexp matches its
filename and to restFiles otherwise, both in manifest order. -/
def splitParWithRest : List NzbFile → List NzbFile × List NzbFile
  | [] => ([], [])
  | f :: fs =>
    let pr := splitParWithRest fs
    if parMatch f.filename then (f :: pr.1, pr.2) else (pr.1, f :: pr.2)

/- ### Par2 command driver (Par2CmdExecutor.Repair) -/

/-- MatchString of the scan pattern: caret, one or more non-newline
characters, then the literal ".par2", unanchored on the right and
case-sensitive. A name matches when ".par2" occurs at some position of at
least one, with no newline before it. -/
def scanPar2Match (name : String) : Bool :=
  let cs := name.data
  (List.range (cs.length + 1)).any (fun i =>
    decide (1 ≤ i) && (cs.take i).all (fun c => c != '\n') &&
      dotPar2.isPrefixOf (cs.drop i))

/-- The walk over the working directory keeps the first regular file whose
base name matches the scan pattern (the source only assigns when
par2FileName is still empty). The directory tree is modelled as the list of
regular-file base names in walk order. -/
def findPar2File (names : List String) : Option String := names.find? scanPar2Match

/-- An empty configured executable path falls back to the name "par2". -/
def par2DefaultedExe (exePath : String) : String :=
  if exePath = "" then "par2" else exePath

/-- The subprocess Par2CmdExecutor.Repair would spawn: executable, argument
list, and the directory set as cmd.Dir. -/
structure Par2Invocation where
  exe : String
  args : List String
  workDir : String
deriving DecidableEq

/-- Par2CmdExecutor.Repair up to process start (lines 84-121): scan the
working directory; with no matching file return success without any
invocation (none); otherwise build the command with arguments r, -q, -p and
the join of the directory with the chosen base name, running in the same
directory. -/
def par2RepairCommand (exePath workDir : String) (names : List String) : Option Par2Invocation :=
  match findPar2File names with
  | none => none
  | some n =>
    some { exe := par2DefaultedExe exePath,
           args := ["r", "-q", "-p", joinPath workDir n],
           workDir := workDir }

/-- The spec's classification of the scan, for comparison: the base name
ends in ".par2" case-insensitively (ASCII folding). -/
def endsWithPar2CI (name : String) : Bool :=
  dotPar2.isSuffixOf (name.data.map Char.toLower)

/-- The par2ExitCodes table (lines 39-49), keyed by exit code. -/
def par2ExitCodeName : Nat → Option String
  | 0 => some "Success"
  | 1 => some "Repair possible"
  | 2 => some "Repair not possible"
  | 3 => some "Invalid command line arguments"
  | 4 => some "Insufficient critical data to verify"
  | 5 => some "Repair failed"
  | 6 => some "FileIO Error"
  | 7 => some "Logic Error"
  | 8 => some "Out of memory"
  | _ => none

/-- The error text for a known nonzero exit code (line 196). -/
def par2KnownExitMessage (code : Nat) (name stderr : String) : String :=
  "par2 exited with code " ++ toString code ++ ": " ++ name ++ ". Stderr: " ++ stderr

/-- The error text for an unknown nonzero exit code (line 203). -/
def par2UnknownExitMessage (code : Nat) (stderr : String) : String :=
  "par2 exited with unknown code " ++ toString code ++ ". Stderr: " ++ stderr

/-- The exit handling of Par2CmdExecutor.Repair (lines 188-209): cmd.Run
returns no error exactly for exit code 0, so Repair returns none; a nonzero
exit code produces the known-code message when the table lists it and the
unknown-code message otherwise, with the accumulated stderr appended. -/
def par2RunResult (exitCode : Nat) (stderr : String) : Option String :=
  if exitCode = 0 then none
  else
    match par2ExitCodeName exitCode with
    | some n => some (par2KnownExitMessage exitCode n stderr)
    | none => some (par2UnknownExitMessage exitCode stderr)

/- ### Download step of the repair pipeline (downloadWorker) -/

/-- A successfully fetched segment: its 1-based number and the article body
the pool wrote into the buffer. Bytes are Nat below 256. -/
structure SegmentFetch where
  number : Nat
  body : List Nat
deriving DecidableEq

/-- The write offset of repair_nzb.go line 435: start is the segment number
minus one times the length of the buffer just downloaded for this very
segment, not a per-file constant. -/
def downloadWriteOffset (segNumber : Nat) (body : List Nat) : Nat :=
  (segNumber - 1) * body.length

/-- The positional writes the download fan-out issues for the successfully
fetched segments of one file: each body at its own downloadWriteOffset.
Completion order does not change the set of writes, so they are listed in
segment order. -/
def downloadWrites (fetched : List SegmentFetch) : List (Nat × List Nat) :=
  fetched.map (fun s => (downloadWriteOffset s.number s.body, s.body))

/-- The claim's addressing scheme: the observed size is the body length of
the first actually-downloaded segment of the file. -/
def observedSizeSpec (fetched : List SegmentFetch) : Nat :=
  match fetched with
  | [] => 0
  | s :: _ => s.body.length

/-- The claim's write offset: segment number minus one times the one
observed size of the file. -/
def specWriteOffset (segNumber observed : Nat) : Nat := (segNumber - 1) * observed

/- ### Article codec (articleData.EncodeBytes) -/

/-- The reversed IEEE polynomial of hash/crc32 (crc32.IEEE). -/
def crc32Poly : Nat := 0xEDB88320

/-- One bit of the reflected CRC32 update: shift right, folding the
polynomial in when the low bit was set. -/
def crc32BitStep (c : Nat) : Nat :=
  if c % 2 = 1 then (c / 2) ^^^ crc32Poly else c / 2

/-- Iterate the bit step. -/
def crc32Bits : Nat → Nat → Nat
  | 0, c => c
  | n + 1, c => crc32Bits n (crc32BitStep c)

/-- One byte of the reflected CRC32 update: xor the byte into the low bits
and run eight bit steps. Equals the table lookup hash/crc32 performs. -/
def crc32ByteStep (crc b : Nat) : Nat := crc32Bits 8 (crc ^^^ (b % 256))

/-- CRC32 with the IEEE polynomial as hash/crc32 computes it: start from all
ones, fold every byte, complement at the end. -/
def crc32IEEE (bs : List Nat) : Nat :=
  (bs.foldl crc32ByteStep 0xFFFFFFFF) ^^^ 0xFFFFFFFF

/-- One uppercase hexadecimal digit. -/
def hexDigitU (n : Nat) : Char :=
  if n < 10 then Char.ofNat (48 + n) else Char.ofNat (55 + n)

/-- Uppercase hexadecimal digits of a number, most significant first, empty
for zero. -/
def hexDigitsU (n : Nat) : List Char :=
  if h : n = 0 then []
  else hexDigitsU (n / 16) ++ [hexDigitU (n % 16)]
  termination_by n
  decreasing_by exact Nat.div_lt_self (Nat.pos_of_ne_zero h) (by decide)

/-- Go fmt %08X: uppercase hexadecimal, zero-padded on the left to a width
of at least eight. -/
def hexUpper8 (n : Nat) : String :=
  let ds := if n = 0 then ['0'] else hexDigitsU n
  ⟨List.replicate (8 - ds.length) '0' ++ ds⟩

/-- Uppercase hexadecimal digit character class. -/
def isHexUpperDigit (c : Char) : Bool :=
  ('0' ≤ c && c ≤ '9') || ('A' ≤ c && c ≤ 'F')

/-- The outgoing article fields EncodeBytes reads (part_010 lines 16-34).
The body carries the plaintext segment bytes. -/
structure ArticleData where
  partNum : Int
  partTotal : Int
  partSize : Int
  partBegin : Int
  partEnd : Int
  fileSize : Int
  filename : String
  body : List Nat
deriving DecidableEq

/-- The blank line and yEnc opening of the header block (line 65-66): ybegin
with part, total, fixed line 128, size and name, then the ypart range with a
1-based inclusive begin. -/
def ybeginBlock (a : ArticleData) : String :=
  "\r\n=ybegin part=" ++ toString a.partNum ++ " total=" ++ toString a.partTotal ++
    " line=128 size=" ++ toString a.fileSize ++ " name=" ++ a.filename ++
    "\r\n=ypart begin=" ++ toString (a.partBegin + 1) ++ " end=" ++ toString a.partEnd ++ "\r\n"

/-- The yEnc footer (line 77): yend with the part size, part number, and the
CRC32 of the plaintext body rendered by %08X. -/
def yendFooter (a : ArticleData) : String :=
  "\r\n=yend size=" ++ toString a.partSize ++ " part=" ++ toString a.partNum ++
    " pcrc32=" ++ hexUpper8 (crc32IEEE a.body) ++ "\r\n"

/-- ASCII bytes of a string. -/
def strBytes (s : String) : List Nat := s.data.map Char.toNat

/-- articleData.EncodeBytes (lines 36-96): the RFC-822 header lines followed
by the ybegin block, then the yEnc-encoded body produced by the external
encoder, then the footer. The header lines vary with map iteration order and
the current time, neither of which the footer depends on, so they enter as
one opaque string; the encoder enters as the function its Encode method
denotes. -/
def encodeBytes (headerLines : String) (encode : List Nat → List Nat) (a : ArticleData) : List Nat :=
  strBytes (headerLines ++ ybeginBlock a) ++ encode a.body ++ strBytes (yendFooter a)

/- ### Watch-mode output path guard (internal/app/app.go calculateJobOutputPath) -/

/-- A queue status write the worker issues. -/
structure StatusUpdate where
  jobId : Int
  status : JobStatus
  errorMsg : String
deriving DecidableEq

/-- The diagnostic message of app.go line 389; Go %q is modelled as plain
double quoting (none of the claim's inputs need escapes). -/
def invalidRelPathMsg (relPath : String) : String :=
  "invalid relative path calculated: \"" ++ relPath ++ "\""

/-- calculateJobOutputPath (app.go lines 384-411): clean the job's relative
path; when the cleaned path starts with "..", is ".", is empty, or is
absolute, refuse (no output path) and mark the job failed with the
diagnostic; otherwise the output path is the join of the output base
directory with the cleaned path. The MkdirAll on the parent is a filesystem
effect outside this model and assumed to succeed. -/
def calculateJobOutputPath (outputBaseDir : String) (jobId : Int) (relPath : String) :
    Option String × List StatusUpdate :=
  if strStartsWith (cleanPath relPath) ".." || (cleanPath relPath == ".") ||
      (cleanPath relPath == "") || isAbsPath (cleanPath relPath) then
    (none, [{ jobId := jobId, status := JobStatus.failed, errorMsg := invalidRelPathMsg relPath }])
  else
    (some (joinPath outputBaseDir (cleanPath relPath)), [])

/- ### Helper lemmas -/

theorem providerWithDefaults_idem (p : ProviderConfig) :
    providerWithDefaults (providerWithDefaults p) = providerWithDefaults p := by
  simp only [providerWithDefaults]
  by_cases h1 : p.maxConnections = 0 <;>
    by_cases h2 : p.maxConnectionIdleTimeInSeconds = 0 <;>
      simp [h1, h2]

theorem sumMaxConnections_map_defaults (l : List ProviderConfig) :
    sumMaxConnections (l.map providerWithDefaults) = sumMaxConnections l := by
  simp [sumMaxConnections, List.map_map, Function.comp_def, providerWithDefaults_idem]

theorem ite_zero_idem (a d : Int) :
    (if (if a = 0 then d else a) = 0 then d else (if a = 0 then d else a)) =
      (if a = 0 then d else a) := by
  by_cases h : a = 0
  · simp [h]
  · simp [h]

theorem ite_blank_idem (a d : String) :
    (if (if a = "" then d else a) = "" then d else (if a = "" then d else a)) =
      (if a = "" then d else a) := by
  by_cases h : a = ""
  · simp [h]
  · simp [h]

theorem listIsInside_nil_left (s : List Char) : listIsInside [] s = true := by
  cases s <;> simp [listIsInside, List.isPrefixOf]

theorem isPrefixOf_append_right {t u : List Char} (h : t.isPrefixOf u = true)
    (v : List Char) : t.isPrefixOf (u ++ v) = true := by
  rw [List.isPrefixOf_iff_prefix] at h ⊢
  exact h.trans (List.prefix_append u v)

theorem listIsInside_append_right_of {t a : List Char} (h : listIsInside t a = true)
    (b : List Char) : listIsInside t (a ++ b) = true := by
  induction a with
  | nil =>
    have ht : t = [] := by
      cases t with
      | nil => rfl
      | cons c cs => simp [listIsInside, List.isPrefixOf] at h
    subst ht
    exact listIsInside_nil_left _
  | cons c a' ih =>
    simp only [listIsInside, Bool.or_eq_true] at h
    simp only [List.cons_append, listIsInside, Bool.or_eq_true]
    rcases h with h | h
    · exact Or.inl (by simpa using isPrefixOf_append_right h b)
    · exact Or.inr (ih h)

theorem listIsInside_suffix (x t : List Char) : listIsInside t (x ++ t) = true := by
  induction x with
  | nil =>
    cases t with
    | nil => simp [listIsInside, List.isPrefixOf]
    | cons c cs =>
      simp only [List.nil_append, listIsInside, Bool.or_eq_true]
      exact Or.inl (by rw [List.isPrefixOf_iff_prefix])
  | cons c x' ih =>
    simp only [List.cons_append, listIsInside, Bool.or_eq_true]
    exact Or.inr ih

theorem strContainsSub_self_suffix (x t : String) : strContainsSub (x ++ t) t = true := by
  simp only [strContainsSub, String.data_append]
  exact listIsInside_suffix x.data t.data

theorem strContainsSub_append_right {a t : String} (h : strContainsSub a t = true)
    (b : String) : strContainsSub (a ++ b) t = true := by
  simp only [strContainsSub, String.data_append]
  exact listIsInside_append_right_of h b.data

theorem par2KnownExitMessage_contains_code (code : Nat) (n s : String) :
    strContainsSub (par2KnownExitMessage code n s) (toString code) = true := by
  unfold par2KnownExitMessage
  exact strContainsSub_append_right (strContainsSub_append_right
    (strContainsSub_append_right (strContainsSub_append_right
      (strContainsSub_self_suffix _ _) _) _) _) _

theorem par2KnownExitMessage_contains_name (code : Nat) (n s : String) :
    strContainsSub (par2KnownExitMessage code n s) n = true := by
  unfold par2KnownExitMessage
  exact strContainsSub_append_right (strContainsSub_append_right
    (strContainsSub_self_suffix _ _) _) _

theorem par2KnownExitMessage_contains_stderr (code : Nat) (n s : String) :
    strContainsSub (par2KnownExitMessage code n s) s = true := by
  unfold par2KnownExitMessage
  exact strContainsSub_self_suffix _ _

/- ### C1 -/

/-- C1: the download step is claimed to write every fetched segment at
offset (number - 1) times one observed size per file, the first downloaded
body's length propagated to the other segments. The code instead multiplies
by the length of the very body just fetched (repair_nzb.go line 435): with a
first body of length 3 and a second of length 5, segment 2 is written at
offset 5 where the claimed scheme addresses it at offset 3. -/
theorem c1_download_offset_uses_current_body_length :
    downloadWrites [{ number := 1, body := [10, 11, 12] },
        { number := 2, body := [20, 21, 22, 23, 24] }] =
      [(0, [10, 11, 12]), (5, [20, 21, 22, 23, 24])] ∧
    specWriteOffset 2 (observedSizeSpec [{ number := 1, body := [10, 11, 12] },
        { number := 2, body := [20, 21, 22, 23, 24] }]) = 3 ∧
    (5 : Nat) ≠ 3 := by
  decide

/- ### C7 -/

/-- C7: UpdateJobStatus with status failed adds exactly one to the targeted
job's retry_count, and any other status (or any other row) leaves
retry_count unchanged. -/
theorem c7_updateJobStatus_retry_count :
    ∀ (db : List JobRow) (jobId : Int) (status : JobStatus) (errorMsg : String),
      (updateJobStatus db jobId status errorMsg).map (fun r => (r.id, r.retryCount)) =
        db.map (fun r =>
          (r.id,
           if r.id = jobId ∧ status = JobStatus.failed then r.retryCount + 1
           else r.retryCount)) := by
  intro db jobId status errorMsg
  simp only [updateJobStatus, List.map_map]
  refine List.map_congr_left ?_
  intro r _
  by_cases hid : r.id = jobId
  · by_cases hst : status = JobStatus.failed
    · simp [hid, hst]
    · simp [hid, hst]
  · simp [hid]

/- ### C9 -/

/-- C9 counterexample: a parsed configuration with download_workers zero and
an empty provider list loads with download_workers 0, not the fallback 10
the claim describes. -/
theorem c9_empty_provider_fallback_counterexample :
    (mergeWithDefault (some
        { downloadWorkers := 0, uploadWorkers := 0, downloadFolder := "",
          downloadProviders := [], uploadProviders := [], par2Exe := "",
          obfuscationPolicy := "", scanInterval := 0, maxRetries := 0,
          brokenFolder := "" })).downloadWorkers = 0 ∧ (0 : Int) ≠ 10 := by
  constructor
  · rfl
  · decide

/-- C9 as amended: a zero (or omitted) download_workers or upload_workers
loads as the sum of the respective providers' max_connections after
per-provider defaulting — with an empty provider list that sum is 0 and the
value stays 0 — while a nonzero value is kept; the fallback 10 belongs only
to the no-argument mergeWithDefault call, which file parsing never makes. -/
theorem c9_workers_default_to_provider_sum :
    ∀ cfg : Config,
      ((cfg.downloadWorkers = 0 →
         (mergeWithDefault (some cfg)).downloadWorkers =
           sumMaxConnections cfg.downloadProviders) ∧
       (cfg.downloadWorkers ≠ 0 →
         (mergeWithDefault (some cfg)).downloadWorkers = cfg.downloadWorkers)) ∧
      ((cfg.uploadWorkers = 0 →
         (mergeWithDefault (some cfg)).uploadWorkers =
           sumMaxConnections cfg.uploadProviders) ∧
       (cfg.uploadWorkers ≠ 0 →
         (mergeWithDefault (some cfg)).uploadWorkers = cfg.uploadWorkers)) ∧
      (mergeWithDefault none).downloadWorkers = 10 ∧
      (mergeWithDefault none).uploadWorkers = 10 := by
  intro cfg
  refine ⟨⟨fun h => ?_, fun h => ?_⟩, ⟨fun h => ?_, fun h => ?_⟩, rfl, rfl⟩ <;>
    simp [mergeWithDefault, h]

/- ### C10 -/

/-- C10: applying the configuration defaulting pass to an already-defaulted
configuration changes nothing. -/
theorem c10_mergeWithDefault_idempotent :
    ∀ cfg : Config,
      mergeWithDefault (some (mergeWithDefault (some cfg))) =
        mergeWithDefault (some cfg) := by
  intro cfg
  obtain ⟨dw, uw, df, dps, ups, pe, op, si, mr, bf⟩ := cfg
  simp [mergeWithDefault, Config.mk.injEq, sumMaxConnections_map_defaults,
    List.map_map, Function.comp_def, providerWithDefaults_idem, ite_zero_idem,
    ite_blank_idem]

/- ### C3 -/

/-- C3 counterexample: a working directory whose only regular file is
"A.PAR2" ends in ".par2" case-insensitively, yet Repair returns success
without invoking par2: the scan pattern carries no case-insensitive flag, so
the claimed "iff" fails at this input. -/
theorem c3_case_sensitivity_counterexample :
    par2RepairCommand "par2" "work" ["A.PAR2"] = none ∧
    endsWithPar2CI "A.PAR2" = true := by
  decide

/-- C3 as amended: Repair returns success without invoking the par2 binary
iff no regular file of the walked directory tree matches the case-SENSITIVE,
right-unanchored scan pattern (at least one non-newline character followed
by ".par2" anywhere in the name); otherwise it runs the configured binary
(default "par2") with arguments r, -q, -p and the join of the directory with
the first matching base name, in that directory. -/
theorem c3_repair_invocation_amended :
    ∀ (exePath workDir : String) (names : List String),
      (par2RepairCommand exePath workDir names = none ↔
        ∀ n ∈ names, scanPar2Match n = false) ∧
      (∀ n, findPar2File names = some n →
        par2RepairCommand exePath workDir names =
          some { exe := par2DefaultedExe exePath,
                 args := ["r", "-q", "-p", joinPath workDir n],
                 workDir := workDir }) := by
  intro exePath workDir names
  constructor
  · constructor
    · intro h n hn
      cases hf : findPar2File names with
      | none =>
        have hf' : names.find? scanPar2Match = none := hf
        have := List.find?_eq_none.mp hf' n hn
        simpa using this
      | some m => simp [par2RepairCommand, hf] at h
    · intro h
      have hf : findPar2File names = none :=
        List.find?_eq_none.mpr (fun n hn => by simp [h n hn])
      simp [par2RepairCommand, hf]
  · intro n hf
    simp [par2RepairCommand, hf]

/- ### C4 -/

/-- C4 counterexample: at exit code 3 the error message carries the code
table's "Invalid command line arguments", not the claimed name "Bad
arguments", so the claimed message content fails at this input. -/
theorem c4_exit3_name_counterexample :
    par2RunResult 3 "boom" =
      some "par2 exited with code 3: Invalid command line arguments. Stderr: boom" ∧
    strContainsSub
      "par2 exited with code 3: Invalid command line arguments. Stderr: boom"
      "Bad arguments" = false := by
  decide

/-- C4 as amended: exit code 0 yields no error; every exit code 1 to 8
yields an error whose message includes the code, the name the source's
par2ExitCodes table assigns it (1 Repair possible, 2 Repair not possible,
3 Invalid command line arguments, 4 Insufficient critical data to verify,
5 Repair failed, 6 FileIO Error, 7 Logic Error, 8 Out of memory), and the
accumulated stderr. -/
theorem c4_exit_code_error_amended :
    ∀ (code : Nat) (stderr : String),
      (code = 0 → par2RunResult code stderr = none) ∧
      (1 ≤ code → code ≤ 8 →
        ∃ n, par2ExitCodeName code = some n ∧
          par2RunResult code stderr = some (par2KnownExitMessage code n stderr) ∧
          strContainsSub (par2KnownExitMessage code n stderr) (toString code) = true ∧
          strContainsSub (par2KnownExitMessage code n stderr) n = true ∧
          strContainsSub (par2KnownExitMessage code n stderr) stderr = true) := by
  intro code stderr
  constructor
  · intro h
    simp [par2RunResult, h]
  · intro h1 h2
    have hname : ∃ n, par2ExitCodeName code = some n ∧
        par2RunResult code stderr = some (par2KnownExitMessage code n stderr) := by
      interval_cases code <;> exact ⟨_, rfl, rfl⟩
    obtain ⟨n, hn, hr⟩ := hname
    exact ⟨n, hn, hr, par2KnownExitMessage_contains_code code n stderr,
      par2KnownExitMessage_contains_name code n stderr,
      par2KnownExitMessage_contains_stderr code n stderr⟩

/- ### C5 -/

theorem splitParWithRest_eq_filter (files : List NzbFile) :
    splitParWithRest files =
      (files.filter (fun f => parMatch f.filename),
       files.filter (fun f => !parMatch f.filename)) := by
  induction files with
  | nil => rfl
  | cons f fs ih =>
    simp only [splitParWithRest, ih, List.filter_cons]
    by_cases h : parMatch f.filename <;> simp [h]

theorem filter_length_add_filter_not_length (p : NzbFile → Bool) (l : List NzbFile) :
    (l.filter p).length + (l.filter (fun f => !p f)).length = l.length := by
  induction l with
  | nil => rfl
  | cons a l ih =>
    by_cases h : p a <;> simp [List.filter_cons, h, ih] <;> omega

/-- C5: splitParWithRest partitions the manifest's files: the two sides are
disjoint, together they are exactly the files, and a file lands in parFiles
iff its filename matches the par2 pattern case-insensitively (parMatch,
which embeds both the source's and the spec's pattern since the extra
capturing group matches the same language). -/
theorem c5_partition_soundness :
    ∀ (files : List NzbFile) (f : NzbFile),
      (f ∈ files ↔
        f ∈ (splitParWithRest files).1 ∨ f ∈ (splitParWithRest files).2) ∧
      ¬(f ∈ (splitParWithRest files).1 ∧ f ∈ (splitParWithRest files).2) ∧
      (f ∈ (splitParWithRest files).1 ↔ f ∈ files ∧ parMatch f.filename = true) ∧
      (splitParWithRest files).1.length + (splitParWithRest files).2.length =
        files.length := by
  intro files f
  rw [splitParWithRest_eq_filter]
  refine ⟨?_, ?_, ?_, ?_⟩
  · constructor
    · intro hf
      by_cases h : parMatch f.filename
      · exact Or.inl (List.mem_filter.mpr ⟨hf, h⟩)
      · exact Or.inr (List.mem_filter.mpr ⟨hf, by simp [h]⟩)
    · rintro (h | h) <;> exact (List.mem_filter.mp h).1
  · rintro ⟨h1, h2⟩
    have e1 := (List.mem_filter.mp h1).2
    have e2 := (List.mem_filter.mp h2).2
    simp [e1] at e2
  · exact List.mem_filter
  · exact filter_length_add_filter_not_length _ files

/- ### C2 -/

theorem find?_filepath_of_mem {db : List JobRow} {p : String} {r : JobRow}
    (hU : (db.map (fun x => x.filepath)).Nodup) (hr : r ∈ db) (hp : r.filepath = p) :
    db.find? (fun q => q.filepath == p) = some r := by
  induction db with
  | nil => cases hr
  | cons a l ih =>
    rw [List.map_cons, List.nodup_cons] at hU
    rcases List.mem_cons.mp hr with h | h
    · subst h
      exact List.find?_cons_of_pos _ (by simp [hp])
    · have hne : a.filepath ≠ p := by
        intro e
        exact hU.1 (e ▸ hp ▸ List.mem_map_of_mem (fun x => x.filepath) h)
      rw [List.find?_cons_of_neg _ (by simp [hne])]
      exact ih hU.2 h

/-- C2: AddJob inserts a pending row when the absolute path is absent;
resets a failed or completed row to pending, clearing error_msg, refreshing
relative_path and preserving retry_count; and changes nothing when the row
is pending, processing or moved. Filepaths are assumed distinct, the unique
index of the jobs table. -/
theorem c2_addJob_cases :
    ∀ (db : List JobRow) (newId : Int) (p rel : String),
      (db.map (fun r => r.filepath)).Nodup →
      ((∀ r ∈ db, r.filepath ≠ p) →
        addJob db newId p rel = db ++ [newJobRow newId p rel]) ∧
      (∀ r ∈ db, r.filepath = p →
        ((r.status = JobStatus.failed ∨ r.status = JobStatus.completed) →
          addJob db newId p rel =
            db.map (fun q =>
              if q = r then
                { id := r.id, filepath := r.filepath, relativePath := rel,
                  status := JobStatus.pending, errorMsg := none,
                  retryCount := r.retryCount }
              else q)) ∧
        ((r.status = JobStatus.pending ∨ r.status = JobStatus.processing ∨
            r.status = JobStatus.moved) →
          addJob db newId p rel = db)) := by
  intro db newId p rel hU
  constructor
  · intro habs
    have hf : db.find? (fun q => q.filepath == p) = none :=
      List.find?_eq_none.mpr (fun r hr => by simp [habs r hr])
    simp [addJob, hf]
  · intro r hr hp
    have hf := find?_filepath_of_mem hU hr hp
    constructor
    · intro hst
      simp only [addJob, hf, if_pos hst]
      refine List.map_congr_left ?_
      intro q hq
      by_cases hqp : q.filepath = p
      · have hqr : q = r :=
          List.inj_on_of_nodup_map hU hq hr (hqp.trans hp.symm)
        subst hqr
        obtain ⟨qid, qfp, qrp, qst, qem, qrc⟩ := q
        simp_all
      · have hqr : q ≠ r := fun e => hqp (by rw [e, hp])
        simp [hqp, hqr]
    · intro hst
      have hneg : ¬(r.status = JobStatus.failed ∨ r.status = JobStatus.completed) := by
        rcases hst with h | h | h <;> simp [h]
      simp [addJob, hf, hneg]

/-- C2 witness: one failed row with retry_count 2 is reset to pending with a
fresh relative path, a cleared message, and the same retry_count. -/
theorem c2_addJob_witness :
    addJob [{ id := 1, filepath := "a", relativePath := "r0",
              status := JobStatus.failed, errorMsg := some "boom",
              retryCount := 2 }] 5 "a" "r1" =
      [{ id := 1, filepath := "a", relativePath := "r1",
         status := JobStatus.pending, errorMsg := none, retryCount := 2 }] := by
  have h := (((c2_addJob_cases
      [{ id := 1, filepath := "a", relativePath := "r0",
         status := JobStatus.failed, errorMsg := some "boom", retryCount := 2 }]
      5 "a" "r1" (by decide)).2
    { id := 1, filepath := "a", relativePath := "r0",
      status := JobStatus.failed, errorMsg := some "boom", retryCount := 2 }
    (by simp) rfl).1 (Or.inl rfl))
  rw [h]
  decide

/- ### C8 -/

theorem isAbsPath_cleanPath {p : String} (h : isAbsPath p = true) :
    isAbsPath (cleanPath p) = true := by
  cases hd : p.data with
  | nil => simp [isAbsPath, hd] at h
  | cons c tl =>
    have hc : c = '/' := by
      have := h
      rw [isAbsPath, hd] at this
      simpa using this
    subst hc
    rw [cleanPath, hd]
    simp only [cleanPathChars]
    rw [if_neg (by simp)]
    simp [isAbsPath]

/-- C8: every relative path that is empty, ".", absolute, or cleans to a
path starting with "..", is refused by calculateJobOutputPath: no output
path is derived and the one status write marks the job failed with the
diagnostic message. -/
theorem c8_path_traversal_defense :
    ∀ (outputBaseDir : String) (jobId : Int) (relPath : String),
      relPath = "" ∨ relPath = "." ∨ isAbsPath relPath = true ∨
        strStartsWith (cleanPath relPath) ".." = true →
      calculateJobOutputPath outputBaseDir jobId relPath =
        (none, [{ jobId := jobId, status := JobStatus.failed,
                  errorMsg := invalidRelPathMsg relPath }]) := by
  intro base jobId relPath h
  have hguard : (strStartsWith (cleanPath relPath) ".." || (cleanPath relPath == ".") ||
      (cleanPath relPath == "") || isAbsPath (cleanPath relPath)) = true := by
    rcases h with h | h | h | h
    · subst h; decide
    · subst h; decide
    · simp [isAbsPath_cleanPath h]
    · simp [h]
  simp [calculateJobOutputPath, hguard]

/-- C8 witness: the empty relative path is refused and the job marked
failed. -/
theorem c8_path_traversal_witness :
    calculateJobOutputPath "/out" 7 "" =
      (none, [{ jobId := 7, status := JobStatus.failed,
                errorMsg := invalidRelPathMsg "" }]) :=
  c8_path_traversal_defense "/out" 7 "" (Or.inl rfl)

/- ### C6 -/

theorem crc32BitStep_lt {c : Nat} (h : c < 2 ^ 32) : crc32BitStep c < 2 ^ 32 := by
  rw [crc32BitStep]
  have hdiv : c / 2 < 2 ^ 32 := lt_of_le_of_lt (Nat.div_le_self c 2) h
  split
  · exact Nat.xor_lt_two_pow hdiv (by decide)
  · exact hdiv

theorem crc32Bits_lt : ∀ (n : Nat) {c : Nat}, c < 2 ^ 32 → crc32Bits n c < 2 ^ 32 := by
  intro n
  induction n with
  | zero => intro c h; exact h
  | succ n ih => intro c h; exact ih (crc32BitStep_lt h)

theorem crc32ByteStep_lt {c : Nat} (b : Nat) (h : c < 2 ^ 32) :
    crc32ByteStep c b < 2 ^ 32 := by
  refine crc32Bits_lt 8 (Nat.xor_lt_two_pow h ?_)
  exact lt_of_lt_of_le (Nat.mod_lt b (by decide)) (by decide)

theorem crc32_foldl_lt : ∀ (bs : List Nat) {c : Nat}, c < 2 ^ 32 →
    bs.foldl crc32ByteStep c < 2 ^ 32 := by
  intro bs
  induction bs with
  | nil => intro c h; exact h
  | cons b bs ih => intro c h; exact ih (crc32ByteStep_lt b h)

theorem crc32IEEE_lt (bs : List Nat) : crc32IEEE bs < 2 ^ 32 :=
  Nat.xor_lt_two_pow (crc32_foldl_lt bs (by decide)) (by decide)

theorem hexDigitsU_length_le : ∀ (k n : Nat), n < 16 ^ k → (hexDigitsU n).length ≤ k := by
  intro k
  induction k with
  | zero =>
    intro n h
    have : n = 0 := Nat.lt_one_iff.mp h
    subst this
    rw [hexDigitsU]
    simp
  | succ k ih =>
    intro n h
    by_cases h0 : n = 0
    · subst h0
      rw [hexDigitsU]
      simp
    · rw [hexDigitsU]
      rw [dif_neg h0]
      have hdiv : n / 16 < 16 ^ k := by
        rw [Nat.div_lt_iff_lt_mul (by decide : 0 < 16)]
        calc n < 16 ^ (k + 1) := h
        _ = 16 ^ k * 16 := by rw [pow_succ]
      simpa using Nat.succ_le_succ (ih (n / 16) hdiv)

theorem hexUpper8_length {n : Nat} (h : n < 2 ^ 32) : (hexUpper8 n).length = 8 := by
  rw [hexUpper8]
  by_cases h0 : n = 0
  · subst h0; rfl
  · have hle : (hexDigitsU n).length ≤ 8 := by
      refine hexDigitsU_length_le 8 n ?_
      calc n < 2 ^ 32 := h
      _ = 16 ^ 8 := by norm_num
    show (List.replicate (8 - _) '0' ++ _).length = 8
    simp only [if_neg h0, List.length_append, List.length_replicate]
    omega

theorem hexDigitU_class {d : Nat} (h : d < 16) : isHexUpperDigit (hexDigitU d) = true := by
  interval_cases d <;> decide

theorem hexDigitsU_class : ∀ (n : Nat), ∀ c ∈ hexDigitsU n, isHexUpperDigit c = true := by
  intro n
  induction n using Nat.strong_induction_on with
  | _ n ih =>
    intro c hc
    rw [hexDigitsU] at hc
    by_cases h0 : n = 0
    · simp [h0] at hc
    · rw [dif_neg h0] at hc
      rcases List.mem_append.mp hc with h | h
      · exact ih (n / 16) (Nat.div_lt_self (Nat.pos_of_ne_zero h0) (by decide)) c h
      · have : c = hexDigitU (n % 16) := by simpa using h
        subst this
        exact hexDigitU_class (Nat.mod_lt n (by decide))

theorem hexUpper8_class (n : Nat) : (hexUpper8 n).data.all isHexUpperDigit = true := by
  rw [hexUpper8]
  rw [List.all_eq_true]
  intro c hc
  rcases List.mem_append.mp hc with h | h
  · have : c = '0' := List.eq_of_mem_replicate h
    subst this
    decide
  · by_cases h0 : n = 0
    · rw [if_pos h0] at h
      have : c = '0' := by simpa using h
      subst this
      decide
    · rw [if_neg h0] at h
      exact hexDigitsU_class n c h

theorem strBytes_append (s t : String) : strBytes (s ++ t) = strBytes s ++ strBytes t := by
  simp [strBytes, String.data_append]

/-- C6: in every outgoing article stream, whatever encoder encodes the body,
the bytes after "pcrc32=" in the yend footer are exactly the IEEE CRC32 of
the plaintext body rendered by %08X: eight characters, every one an
uppercase hexadecimal digit, zero-padded. -/
theorem c6_pcrc32_footer :
    ∀ (headerLines : String) (encode : List Nat → List Nat) (a : ArticleData),
      (∃ front : List Nat,
        encodeBytes headerLines encode a =
          front ++ strBytes ("pcrc32=" ++ hexUpper8 (crc32IEEE a.body) ++ "\r\n")) ∧
      (hexUpper8 (crc32IEEE a.body)).length = 8 ∧
      (hexUpper8 (crc32IEEE a.body)).data.all isHexUpperDigit = true := by
  intro hl encode a
  refine ⟨⟨strBytes (hl ++ ybeginBlock a) ++ encode a.body ++
      strBytes ("\r\n=yend size=" ++ toString a.partSize ++ " part=" ++
        toString a.partNum ++ " "), ?_⟩,
    hexUpper8_length (crc32IEEE_lt a.body), hexUpper8_class _⟩
  have hfootB : strBytes (yendFooter a) =
      strBytes ("\r\n=yend size=" ++ toString a.partSize ++ " part=" ++
        toString a.partNum ++ " ") ++
      strBytes ("pcrc32=" ++ hexUpper8 (crc32IEEE a.body) ++ "\r\n") := by
    rw [yendFooter]
    simp only [strBytes_append]
    rw [show strBytes " pcrc32=" = strBytes " " ++ strBytes "pcrc32=" from by decide]
    simp [List.append_assoc]
  rw [encodeBytes, hfootB]
  simp [List.append_assoc]

end NzbRepair
